import Mathlib

/-!
Verification of the AURORA density-control loop and the seq2seq encoder/decoder
model of this repository.

The loop constants, retrain schedule, controller branch and metrics function are
embedded from src/tests/core_test/aurora_test.py (function test_aurora).  The
encoder and decoder scans are embedded from src/qdax/utils/seq2seq_model.py.
The archive container itself (unstructured repertoire with insertion threshold)
is not among the source files; where a claim depends on it, the container is
modelled from the specification and the definition says so in its doc comment.

Real numbers of the source are modelled as rationals, machine integers as Nat
or Int; batched jax arrays are modelled as lists, with per-sample semantics for
vmapped or masked operations.
-/

set_option maxRecDepth 8000

namespace Aurora

/-! ## Loop constants, from aurora_test.py -/

/-- Target number of individuals in the archive, aurora_test.py line 221. -/
def n_target : ℤ := 1024

/-- Proportional gain of the controller, `1 * 10e-6`, aurora_test.py line 286. -/
def prop_gain : ℚ := 1 * (10 / 10 ^ 6)

/-- Initial insertion threshold, aurora_test.py line 38. -/
def l_value_init : ℚ := 2 / 10

/-- Base interval of the retrain schedule, aurora_test.py line 186. -/
def default_update_base : ℕ := 10

/-- Logging frequency, aurora_test.py line 40. -/
def log_freq : ℕ := 5

/-- `int(jnp.ceil(default_update_base / log_freq))`, aurora_test.py line 187. -/
def update_base : ℕ := (((default_update_base : ℚ)) / (log_freq : ℚ)).ceil.toNat

/-- `jnp.arange(start, stop, step)` for naturals with positive step. -/
def arange (start stop step : ℕ) : List ℕ :=
  (List.range ((stop - start + step - 1) / step)).map (fun k => start + k * step)

/-- Cumulative sums with a running accumulator. -/
def cumsumFrom (acc : ℕ) : List ℕ → List ℕ
  | [] => []
  | x :: xs => (acc + x) :: cumsumFrom (acc + x) xs

/-- `jnp.cumsum`. -/
def cumsum (l : List ℕ) : List ℕ := cumsumFrom 0 l

/-- The retrain schedule,
`jnp.cumsum(jnp.arange(update_base, 1000, update_base))`, aurora_test.py
line 188.  Computed once here and referred to, never rebuilt, afterwards. -/
def schedules : List ℕ := cumsum (arange update_base 1000 update_base)

/-! ## Archive

The archive container (QDax unstructured repertoire) is not among the source
files, only its caller is; it is modelled from the specification. -/

/-- One archive entry: genotype, fitness, one-dimensional behaviour descriptor
and raw observation trace.  The genotype type is opaque.  An empty slot is
`none`; the specification represents emptiness by a fitness sentinel of
negative infinity, which the option models exactly. -/
structure Entry (G : Type) where
  genotype : G
  fitness : ℚ
  descriptor : ℚ
  observation : List ℚ
  deriving DecidableEq

/-- Modelled from the spec: fixed-capacity unstructured archive, a parallel
structure over slots plus a scalar insertion threshold `l_value`. -/
structure Archive (G : Type) where
  slots : List (Option (Entry G))
  l_value : ℚ
  deriving DecidableEq

/-- The occupied entries of the archive, in ascending slot order. -/
def occupiedEntries {G : Type} (a : Archive G) : List (Entry G) :=
  a.slots.filterMap id

/-- Occupancy: the number of slots whose fitness differs from the empty
sentinel (`jnp.sum(repertoire.fitnesses != -jnp.inf)`). -/
def occupancy {G : Type} (a : Archive G) : ℕ := (occupiedEntries a).length

/-- Euclidean distance in the one-dimensional descriptor space. -/
def dist (a b : ℚ) : ℚ := |a - b|

/-- Modelled from the spec: write a candidate into the lowest-index empty
slot; if no empty slot exists the candidate is silently dropped. -/
def writeFirstEmpty {G : Type} : List (Option (Entry G)) → Entry G → List (Option (Entry G))
  | [], _ => []
  | none :: rest, c => some c :: rest
  | some e :: rest, c => some e :: writeFirstEmpty rest c

/-- Index and entry of the occupied slot nearest to a descriptor, earliest
slot winning ties; `none` when no slot is occupied. -/
def nearestOccupied {G : Type} (slots : List (Option (Entry G))) (d : ℚ) :
    Option (ℕ × Entry G) :=
  (slots.enum.filterMap (fun p => p.2.map (fun e => (p.1, e)))).foldl
    (fun best p =>
      match best with
      | none => some p
      | some q => if dist d p.2.descriptor < dist d q.2.descriptor then some p else best)
    none

/-- Modelled from the spec: insert one candidate.  A candidate whose nearest
occupied neighbour is at distance at least `l_value` (or with no occupied
slot) is novel and goes to the lowest empty slot; otherwise the cell is
contested and the candidate replaces the neighbour only when its fitness is
strictly greater, ties favouring the incumbent. -/
def insertOne {G : Type} (a : Archive G) (c : Entry G) : Archive G :=
  match nearestOccupied a.slots c.descriptor with
  | none => { a with slots := writeFirstEmpty a.slots c }
  | some (j, e) =>
      if dist c.descriptor e.descriptor < a.l_value then
        if e.fitness < c.fitness then { a with slots := a.slots.set j (some c) }
        else a
      else { a with slots := writeFirstEmpty a.slots c }

/-- All-empty archive of a given capacity and threshold. -/
def emptyArchive (G : Type) (n : ℕ) (l : ℚ) : Archive G :=
  ⟨List.replicate n none, l⟩

/-- Modelled from the spec: rebuild starts from an all-empty archive of the
same capacity and threshold and inserts the given entries in order. -/
def rebuild {G : Type} (capacity : ℕ) (l : ℚ) (entries : List (Entry G)) : Archive G :=
  entries.foldl insertOne (emptyArchive G capacity l)

/-! ## The generation loop, aurora_test.py lines 220 to 303

The state threaded through the main loop: the repertoire, the controller
memory `previous_error`, and the model state (params, normalization mean and
std).  The model parameter type `P` is opaque; the trainer and the encoder
are opaque function arguments, matching `train_seq2seq.lstm_ae_train` and
`model.encode`, which are outside the source files. -/

structure LoopState (G P : Type) where
  archive : Archive G
  previous_error : ℤ
  params : P
  mean : ℚ
  std : ℚ
  deriving DecidableEq

/-- Normalization applied before encoding:
`(repertoire.observations - mean_observations) / std_observations`,
aurora_test.py lines 263 to 265, per feature of the trace. -/
def normalizeObs (m sd : ℚ) (o : List ℚ) : List ℚ := o.map (fun x => (x - m) / sd)

/-- Retrain branch, aurora_test.py lines 246 to 277: train the autoencoder on
the current repertoire, receive params, mean and std as one tuple, encode all
stored observations with the new model state and rebuild the archive from the
freshly described entries, keeping the threshold. -/
def retrainBranch {G P : Type} (train : List (List ℚ) → P × ℚ × ℚ)
    (encode : P → List ℚ → ℚ) (s : LoopState G P) : LoopState G P :=
  let t := train ((occupiedEntries s.archive).map Entry.observation)
  let fresh := (occupiedEntries s.archive).map
    (fun e => { e with descriptor := encode t.1 (normalizeObs t.2.1 t.2.2 e.observation) })
  { archive := rebuild s.archive.slots.length s.archive.l_value fresh,
    previous_error := s.previous_error,
    params := t.1, mean := t.2.1, std := t.2.2 }

/-- Controller branch, aurora_test.py lines 279 to 302: proportional plus
derivative correction of the threshold from the occupancy error, then the
archive is re-created with all entry arrays unchanged and the new threshold. -/
def ctrlBranch {G P : Type} (s : LoopState G P) : LoopState G P :=
  let num_indivs : ℤ := (occupancy s.archive : ℤ)
  let current_error : ℤ := num_indivs - n_target
  let change_rate : ℤ := current_error - s.previous_error
  let l_value : ℚ := s.archive.l_value + prop_gain * (current_error : ℚ)
      + prop_gain * (change_rate : ℚ)
  { s with archive := { s.archive with l_value := l_value },
           previous_error := current_error }

/-- The dispatch of one loop iteration, aurora_test.py lines 246 and 279: the
retrain branch fires when `iteration + 1` is in the schedule, otherwise the
controller branch fires on even iterations, otherwise nothing happens. -/
def dispatchStep {G P : Type} (train : List (List ℚ) → P × ℚ × ℚ)
    (encode : P → List ℚ → ℚ) (i : ℕ) (s : LoopState G P) : LoopState G P :=
  if (i + 1) ∈ schedules then retrainBranch train encode s
  else if i % 2 = 0 then ctrlBranch s
  else s

/-- One full generation of the main loop: the scanned update phase
(`aurora.update`, external to the source files, hence an opaque state
transformer) followed by the dispatch above. -/
def generationStep {G P : Type} (train : List (List ℚ) → P × ℚ × ℚ)
    (encode : P → List ℚ → ℚ) (upd : LoopState G P → LoopState G P)
    (i : ℕ) (s : LoopState G P) : LoopState G P :=
  dispatchStep train encode i (upd s)

/-! ## A concrete run of the loop

Concrete instantiation: unit genotypes and params, a trainer returning fixed
statistics, an encoder returning zero, and an update phase that adds no
candidate (the emission, scoring and insertion phase is external to the
source files; adding nothing is one admissible behaviour of it). -/

def unitTrain : List (List ℚ) → Unit × ℚ × ℚ := fun _ => ((), 0, 1)

def unitEncode : Unit → List ℚ → ℚ := fun _ _ => 0

/-- The loop state before the first iteration: empty 50-slot archive with the
initial threshold, and `previous_error` seeded from the occupancy error of
that archive, aurora_test.py line 223. -/
def initState : LoopState Unit Unit :=
  { archive := emptyArchive Unit 50 l_value_init,
    previous_error := (occupancy (emptyArchive Unit 50 l_value_init) : ℤ) - n_target,
    params := (), mean := 0, std := 1 }

/-- The loop run for `n` generations, iteration counter starting at 1. -/
def cexRun (n : ℕ) : LoopState Unit Unit :=
  (List.range n).foldl
    (fun s i => generationStep unitTrain unitEncode id (i + 1) s) initState

/-- Invariant of the concrete run: all slots empty, the given threshold, and
the previous error saturated at minus the target count. -/
def IsCex (l : ℚ) (s : LoopState Unit Unit) : Prop :=
  s.archive.slots = List.replicate 50 (none : Option (Entry Unit)) ∧
  s.archive.l_value = l ∧
  s.previous_error = -1024

/-! ## The metrics function, aurora_test.py lines 123 to 133

The fitness array of the repertoire holds negative infinity in empty slots;
`WithBot` models the extended rational line, with bottom for the sentinel. -/

structure Metrics where
  qd_score : ℚ
  max_fitness : WithBot ℚ
  coverage : ℚ

/-- The per-slot fitness array `repertoire.fitnesses`, empty slots carrying
the sentinel bottom element. -/
def fitnessesWithSentinel {G : Type} (a : Archive G) : List (WithBot ℚ) :=
  a.slots.map (fun s => s.elim ⊥ (fun e => (e.fitness : WithBot ℚ)))

/-- The metrics function: qd score summed over non-empty slots plus the
offset, the maximum over the whole fitness array, and the coverage as the
percentage of non-empty slots. -/
def metrics_fn {G : Type} (reward_offset episode_length : ℚ) (a : Archive G) :
    Metrics :=
  { qd_score := ((occupiedEntries a).map Entry.fitness).sum
        + reward_offset * episode_length * (occupancy a : ℚ),
    max_fitness := (fitnessesWithSentinel a).foldr max ⊥,
    coverage := 100 * ((occupancy a : ℚ) / (a.slots.length : ℚ)) }

/-! ## The seq2seq model, src/qdax/utils/seq2seq_model.py

The lifted scans are modelled per sample: a batched array over time becomes a
list of per-timestep inputs, the LSTM cell an opaque function from carry and
input to new carry and output. -/

/-- One step of the EncoderLSTM scan, seq2seq_model.py lines 43 to 59: the
cell runs on the carried state; the carried state is replaced by the new one
only where the end-of-sequence flag is not set; the flag itself is returned
unchanged, its update at line 58 being commented out. -/
def encoderLSTMStep {S X Y : Type} (cell : S → X → S × Y) (carry : S × Bool)
    (x : X) : (S × Bool) × Y :=
  ((if carry.2 then carry.1 else (cell carry.1 x).1, carry.2), (cell carry.1 x).2)

/-- The encoder, seq2seq_model.py lines 74 to 85: scan the EncoderLSTM over
the timesteps from the initial carry with the flag cleared, and return the
final state. -/
def encoderRun {S X Y : Type} (cell : S → X → S × Y) (initState : S)
    (inputs : List X) : S :=
  (inputs.foldl (fun carry x => (encoderLSTMStep cell carry x).1)
    (initState, false)).1

/-- Modelled from the spec: the encoder step as documented at
seq2seq_model.py lines 57, 58, 70, 80 and 81, where the end-of-sequence flag
is also updated by or-ing in the end-of-sequence signal read from the input,
so that the state is held constant once the signal has occurred. -/
def encoderLSTMStepSpec {S X Y : Type} (cell : S → X → S × Y)
    (eosSignal : X → Bool) (carry : S × Bool) (x : X) : (S × Bool) × Y :=
  ((if carry.2 then carry.1 else (cell carry.1 x).1, carry.2 || eosSignal x),
    (cell carry.1 x).2)

/-- Modelled from the spec: the encoder as documented, stopping at the
end-of-sequence signal. -/
def encoderRunSpec {S X Y : Type} (cell : S → X → S × Y)
    (eosSignal : X → Bool) (initState : S) (inputs : List X) : S :=
  (inputs.foldl (fun carry x => (encoderLSTMStepSpec cell eosSignal carry x).1)
    (initState, false)).1

/-- Encode, seq2seq_model.py lines 208 to 212, composed with the caller-side
normalization of aurora_test.py lines 263 to 267: each observation sequence
of the batch is normalized and encoded, and the first component of the final
LSTM carry is the descriptor. -/
def seq2seqEncode {C H Y : Type} (cell : (C × H) → ℚ → (C × H) × Y)
    (initState : C × H) (mean std : ℚ) (obs : List (List ℚ)) : List C :=
  obs.map (fun seq => (encoderRun cell initState (normalizeObs mean std seq)).1)

/-- Scan combinator mirroring the lifted flax scan: thread the carry left to
right, collect the per-step outputs in order. -/
def scanL {C X Y : Type} (f : C → X → C × Y) : C → List X → C × List Y
  | c, [] => (c, [])
  | c, x :: xs =>
      ((scanL f (f c x).1 xs).1, (f c x).2 :: (scanL f (f c x).1 xs).2)

/-- One step of the DecoderLSTM scan, seq2seq_model.py lines 107 to 115: the
input is replaced by the last prediction unless teacher forcing is on, the
cell output goes through the dense layer to give the logits, and the pair of
logits and predictions emitted is (logits, logits). -/
def decoderLSTMStep {S X : Type} (cell : S → X → S × X) (dense : X → X)
    (teacherForce : Bool) (carry : S × X) (x : X) : (S × X) × (X × X) :=
  ((((cell carry.1 (if teacherForce then x else carry.2)).1),
      dense (cell carry.1 (if teacherForce then x else carry.2)).2),
    (dense (cell carry.1 (if teacherForce then x else carry.2)).2,
      dense (cell carry.1 (if teacherForce then x else carry.2)).2))

/-- The decoder, seq2seq_model.py lines 131 to 148: the initial carry pairs
the encoder state with the first input token, the DecoderLSTM scans all the
inputs, and the stacked logits and predictions are returned as a pair. -/
def decoderRun {S X : Type} (cell : S → X → S × X) (dense : X → X)
    (teacherForce : Bool) (inputs : List X) (initState : S) :
    List X × List X :=
  match inputs with
  | [] => ([], [])
  | x0 :: _ =>
      ((scanL (decoderLSTMStep cell dense teacherForce) (initState, x0)
          inputs).2.map Prod.fst,
        (scanL (decoderLSTMStep cell dense teacherForce) (initState, x0)
          inputs).2.map Prod.snd)

/-! ## Witnesses: the theorems above applied at concrete inputs -/

/-- A concrete occupied entry. -/
def entry0 : Entry Unit :=
  { genotype := (), fitness := 1, descriptor := 0, observation := [1, 2] }

/-- A loop state whose archive holds one occupied and one empty slot. -/
def oneState : LoopState Unit Unit :=
  { archive := { slots := [some entry0, none], l_value := l_value_init },
    previous_error := -1024, params := (), mean := 0, std := 1 }

/-! ## Facts about the schedule -/

theorem update_base_eq : update_base = 2 := by
  have h : ((10 : ℚ)) / (5 : ℚ) = 2 := by norm_num
  simp [update_base, default_update_base, log_freq, h, Rat.ceil]

theorem arange_eq : arange update_base 1000 update_base =
    (List.range 499).map (fun k => 2 + k * 2) := by
  rw [update_base_eq]; rfl

theorem schedules_eq :
    schedules = cumsumFrom 0 ((List.range 499).map (fun k => 2 + k * 2)) := by
  rw [schedules, arange_eq]; rfl

theorem cumsumFrom_even {l : List ℕ} :
    ∀ {a : ℕ}, 2 ∣ a → (∀ x ∈ l, 2 ∣ x) → ∀ n ∈ cumsumFrom a l, 2 ∣ n := by
  induction l with
  | nil => intro a _ _ n hn; simp [cumsumFrom] at hn
  | cons x xs ih =>
      intro a ha hl n hn
      rw [cumsumFrom] at hn
      rcases List.mem_cons.mp hn with h | h
      · subst h; exact Nat.dvd_add ha (hl x (List.mem_cons_self x xs))
      · exact ih (Nat.dvd_add ha (hl x (List.mem_cons_self x xs)))
          (fun y hy => hl y (List.mem_cons_of_mem x hy)) n h

theorem mem_schedules_even {n : ℕ} (hn : n ∈ schedules) : 2 ∣ n := by
  rw [schedules_eq] at hn
  refine cumsumFrom_even (dvd_zero 2) ?_ n hn
  intro x hx
  rcases List.mem_map.mp hx with ⟨k, _, rfl⟩
  exact ⟨1 + k, by ring⟩

theorem not_mem_schedules_of_even {i : ℕ} (hi : i % 2 = 0) : (i + 1) ∉ schedules := by
  intro h
  have h2 := mem_schedules_even h
  omega

theorem two_mem_schedules : (2 : ℕ) ∈ schedules := by
  rw [schedules_eq]
  decide

theorem cumsumFrom_chain {l : List ℕ} :
    ∀ {a : ℕ}, (∀ x ∈ l, 0 < x) → List.Chain' (· < ·) (cumsumFrom a l) := by
  induction l with
  | nil => intro a _; simp [cumsumFrom]
  | cons x xs ih =>
      intro a hl
      rw [cumsumFrom]
      refine List.chain'_cons'.mpr
        ⟨?_, ih (fun y hy => hl y (List.mem_cons_of_mem x hy))⟩
      intro y hy
      cases xs with
      | nil => simp [cumsumFrom] at hy
      | cons z zs =>
          rw [cumsumFrom] at hy
          simp at hy
          have hz := hl z (List.mem_cons_of_mem x (List.mem_cons_self z zs))
          omega

/-- Claim C8: the retrain schedule is the cumulative sum of the arithmetic
range derived from the base interval and the log frequency, computed once at
initialization (it is a closed constant of the development, threaded nowhere
through the loop state), and it is a strictly increasing sequence of
generation indices. -/
theorem schedule_computed_once_strictly_increasing :
    update_base = (((default_update_base : ℚ)) / ((log_freq : ℚ))).ceil.toNat ∧
    schedules = cumsum (arange update_base 1000 update_base) ∧
    List.Chain' (· < ·) schedules := by
  refine ⟨rfl, rfl, ?_⟩
  rw [schedules_eq]
  refine cumsumFrom_chain ?_
  intro x hx
  rcases List.mem_map.mp hx with ⟨k, _, rfl⟩
  omega

/-- Claim C4: when the successor of the generation index appears in the
retrain schedule, the dispatch runs the retrain branch and not the controller
branch, whatever the parity of the index; in particular the controller memory
previous_error is untouched at such a generation. -/
theorem retrain_supersedes_controller {G P : Type}
    (train : List (List ℚ) → P × ℚ × ℚ) (encode : P → List ℚ → ℚ)
    (i : ℕ) (s : LoopState G P) (h : (i + 1) ∈ schedules) :
    dispatchStep train encode i s = retrainBranch train encode s ∧
    (dispatchStep train encode i s).previous_error = s.previous_error := by
  have hd : dispatchStep train encode i s = retrainBranch train encode s := by
    rw [dispatchStep, if_pos h]
  exact ⟨hd, by rw [hd]; rfl⟩

/-- Claim C5: at a controller generation the new previous_error is the
occupancy error, the new threshold is the old one plus the gain times the
error plus the same gain times the difference of the error with the stored
previous error, with no clamping in between; and at every generation that is
not a controller generation previous_error is left unchanged, so no other
operation mutates it. -/
theorem controller_pd_law {G P : Type}
    (train : List (List ℚ) → P × ℚ × ℚ) (encode : P → List ℚ → ℚ)
    (i : ℕ) (s : LoopState G P)
    (h1 : (i + 1) ∉ schedules) (h2 : i % 2 = 0) :
    (dispatchStep train encode i s).previous_error =
      (occupancy s.archive : ℤ) - n_target ∧
    (dispatchStep train encode i s).archive.l_value =
      s.archive.l_value
        + prop_gain * ((((occupancy s.archive : ℤ) - n_target : ℤ)) : ℚ)
        + prop_gain * ((((occupancy s.archive : ℤ) - n_target - s.previous_error : ℤ)) : ℚ) ∧
    (∀ j : ℕ, (j + 1) ∈ schedules ∨ j % 2 ≠ 0 →
      (dispatchStep train encode j s).previous_error = s.previous_error) := by
  have hd : dispatchStep train encode i s = ctrlBranch s := by
    rw [dispatchStep, if_neg h1, if_pos h2]
  refine ⟨by rw [hd]; rfl, by rw [hd]; rfl, ?_⟩
  intro j hj
  rcases hj with hj | hj
  · rw [dispatchStep, if_pos hj]; rfl
  · rw [dispatchStep]
    by_cases hs : (j + 1) ∈ schedules
    · rw [if_pos hs]; rfl
    · rw [if_neg hs, if_neg hj]

/-- Claim C6: at a controller generation the slot arrays of the archive, that
is the genotypes, fitnesses, descriptors and observations of every entry, as
well as the model params, mean and std, pass through unchanged; only the
threshold of the archive is replaced by the controller output, which future
insertions will read. -/
theorem controller_generation_frame {G P : Type}
    (train : List (List ℚ) → P × ℚ × ℚ) (encode : P → List ℚ → ℚ)
    (i : ℕ) (s : LoopState G P)
    (h1 : (i + 1) ∉ schedules) (h2 : i % 2 = 0) :
    (dispatchStep train encode i s).archive.slots = s.archive.slots ∧
    (dispatchStep train encode i s).params = s.params ∧
    (dispatchStep train encode i s).mean = s.mean ∧
    (dispatchStep train encode i s).std = s.std ∧
    (dispatchStep train encode i s).archive.l_value =
      s.archive.l_value
        + prop_gain * ((((occupancy s.archive : ℤ) - n_target : ℤ)) : ℚ)
        + prop_gain * ((((occupancy s.archive : ℤ) - n_target - s.previous_error : ℤ)) : ℚ) := by
  have hd : dispatchStep train encode i s = ctrlBranch s := by
    rw [dispatchStep, if_neg h1, if_pos h2]
  exact ⟨by rw [hd]; rfl, by rw [hd]; rfl, by rw [hd]; rfl, by rw [hd]; rfl, by rw [hd]; rfl⟩

/-- Claim C1 (amended): the controller applies no clamp at all; whenever the
occupancy is below the target and the occupancy error does not exceed the
stored previous error, the controller generation strictly decreases the
threshold, so no positive lower bound (and no upper bound) is enforced on it. -/
theorem controller_threshold_strictly_decreases {G P : Type}
    (train : List (List ℚ) → P × ℚ × ℚ) (encode : P → List ℚ → ℚ)
    (i : ℕ) (s : LoopState G P)
    (h1 : (i + 1) ∉ schedules) (h2 : i % 2 = 0)
    (h3 : (occupancy s.archive : ℤ) < n_target)
    (h4 : (occupancy s.archive : ℤ) - n_target ≤ s.previous_error) :
    (dispatchStep train encode i s).archive.l_value < s.archive.l_value := by
  have hd : dispatchStep train encode i s = ctrlBranch s := by
    rw [dispatchStep, if_neg h1, if_pos h2]
  rw [hd]
  show s.archive.l_value
      + prop_gain * ((((occupancy s.archive : ℤ) - n_target : ℤ)) : ℚ)
      + prop_gain * ((((occupancy s.archive : ℤ) - n_target - s.previous_error : ℤ)) : ℚ)
    < s.archive.l_value
  have hg : (0 : ℚ) < prop_gain := by norm_num [prop_gain]
  have he : ((((occupancy s.archive : ℤ) - n_target : ℤ)) : ℚ) < 0 := by
    exact_mod_cast sub_neg.mpr h3
  have hdelta : ((((occupancy s.archive : ℤ) - n_target - s.previous_error : ℤ)) : ℚ) ≤ 0 := by
    exact_mod_cast sub_nonpos.mpr h4
  nlinarith

theorem filterMap_id_replicate_none {α : Type} (n : ℕ) :
    (List.replicate n (none : Option α)).filterMap id = [] := by
  induction n with
  | zero => rfl
  | succ n ih => rw [List.replicate_succ, List.filterMap_cons]; simp [ih]

theorem occupancy_replicate_none {G : Type} {a : Archive G} {n : ℕ}
    (h : a.slots = List.replicate n none) : occupancy a = 0 := by
  rw [occupancy, occupiedEntries, h, filterMap_id_replicate_none]
  rfl

theorem isCex_retrain {l : ℚ} {s : LoopState Unit Unit} (h : IsCex l s) :
    IsCex l (retrainBranch unitTrain unitEncode s) := by
  obtain ⟨hs, hl, hp⟩ := h
  have hocc : occupiedEntries s.archive = [] := by
    rw [occupiedEntries, hs, filterMap_id_replicate_none]
  refine ⟨?_, ?_, hp⟩
  · show (rebuild s.archive.slots.length s.archive.l_value _).slots = _
    rw [hocc]
    simp only [List.map_nil, rebuild, List.foldl_nil, emptyArchive, hs,
      List.length_replicate]
  · show (rebuild s.archive.slots.length s.archive.l_value _).l_value = l
    rw [hocc]
    simp only [List.map_nil, rebuild, List.foldl_nil, emptyArchive, hl]

theorem isCex_ctrl {l : ℚ} {s : LoopState Unit Unit} (h : IsCex l s) :
    IsCex (l + prop_gain * (-1024)) (ctrlBranch s) := by
  obtain ⟨hs, hl, hp⟩ := h
  have hocc : occupancy s.archive = 0 := occupancy_replicate_none hs
  refine ⟨hs, ?_, ?_⟩
  · show s.archive.l_value
        + prop_gain * ((((occupancy s.archive : ℤ) - n_target : ℤ)) : ℚ)
        + prop_gain * ((((occupancy s.archive : ℤ) - n_target - s.previous_error : ℤ)) : ℚ)
      = l + prop_gain * (-1024)
    rw [hl, hocc, hp]
    norm_num [n_target]
  · show (occupancy s.archive : ℤ) - n_target = -1024
    rw [hocc]
    norm_num [n_target]

theorem isCex_dispatch_odd {l : ℚ} {s : LoopState Unit Unit} (h : IsCex l s)
    {i : ℕ} (hi : i % 2 = 1) :
    IsCex l (dispatchStep unitTrain unitEncode i s) := by
  rw [dispatchStep]
  by_cases hm : (i + 1) ∈ schedules
  · rw [if_pos hm]; exact isCex_retrain h
  · rw [if_neg hm, if_neg (by omega : ¬ i % 2 = 0)]; exact h

theorem isCex_dispatch_even {l : ℚ} {s : LoopState Unit Unit} (h : IsCex l s)
    {i : ℕ} (hi : i % 2 = 0) :
    IsCex (l + prop_gain * (-1024)) (dispatchStep unitTrain unitEncode i s) := by
  rw [dispatchStep, if_neg (not_mem_schedules_of_even hi), if_pos hi]
  exact isCex_ctrl h

theorem IsCex.mono {l l' : ℚ} {s : LoopState Unit Unit} (h : IsCex l s)
    (e : l = l') : IsCex l' s := e ▸ h

theorem cexRun_succ (n : ℕ) :
    cexRun (n + 1) = dispatchStep unitTrain unitEncode (n + 1) (cexRun n) := by
  rw [cexRun, cexRun, List.range_succ, List.foldl_append, List.foldl_cons,
    List.foldl_nil]
  rfl

theorem isCex_cexRun (m : ℕ) :
    IsCex (l_value_init + (m : ℚ) * (prop_gain * (-1024))) (cexRun (2 * m)) := by
  induction m with
  | zero =>
      refine ⟨rfl, by norm_num [cexRun, initState, emptyArchive], ?_⟩
      show (occupancy (emptyArchive Unit 50 l_value_init) : ℤ) - n_target = -1024
      rw [occupancy_replicate_none rfl]
      norm_num [n_target]
  | succ m ih =>
      have h2 : 2 * (m + 1) = (2 * m + 1) + 1 := by ring
      rw [h2, cexRun_succ]
      have hodd : IsCex (l_value_init + (m : ℚ) * (prop_gain * (-1024)))
          (cexRun (2 * m + 1)) := by
        have := cexRun_succ (2 * m)
        rw [this]
        exact isCex_dispatch_odd ih (by omega)
      have heven := isCex_dispatch_even hodd (by omega : (2 * m + 1 + 1) % 2 = 0)
      refine heven.mono ?_
      push_cast
      ring

/-- Claim C1 counterexample: iterating the loop for forty generations with an
update phase that adds no candidate leaves the archive empty throughout and
drives the insertion threshold strictly below zero; no clamp to a positive
lower bound (nor to an upper bound) exists anywhere in the controller. -/
theorem controller_threshold_goes_negative : (cexRun 40).archive.l_value < 0 := by
  have h := isCex_cexRun 20
  norm_num at h
  rw [h.2.1]
  norm_num [l_value_init, prop_gain]

/-! ## Provenance of entries through insert and rebuild -/

theorem mem_occupiedEntries {G : Type} {a : Archive G} {e : Entry G} :
    e ∈ occupiedEntries a ↔ some e ∈ a.slots := by
  rw [occupiedEntries]
  constructor
  · intro h
    rcases List.mem_filterMap.mp h with ⟨x, hx, hid⟩
    have hxe : x = some e := hid
    exact hxe ▸ hx
  · intro h
    exact List.mem_filterMap.mpr ⟨some e, h, rfl⟩

theorem mem_writeFirstEmpty {G : Type} {slots : List (Option (Entry G))}
    {c e : Entry G} (h : some e ∈ writeFirstEmpty slots c) :
    some e ∈ slots ∨ e = c := by
  induction slots with
  | nil => simp [writeFirstEmpty] at h
  | cons s rest ih =>
      cases s with
      | none =>
          rw [writeFirstEmpty] at h
          rcases List.mem_cons.mp h with h | h
          · exact Or.inr (Option.some.inj h.symm).symm
          · exact Or.inl (List.mem_cons_of_mem _ h)
      | some e₁ =>
          rw [writeFirstEmpty] at h
          rcases List.mem_cons.mp h with h | h
          · exact Or.inl (h ▸ List.mem_cons_self _ _)
          · rcases ih h with h | h
            · exact Or.inl (List.mem_cons_of_mem _ h)
            · exact Or.inr h

theorem mem_occupied_insertOne {G : Type} {a : Archive G} {c e : Entry G}
    (h : e ∈ occupiedEntries (insertOne a c)) :
    e ∈ occupiedEntries a ∨ e = c := by
  rw [mem_occupiedEntries] at h
  rw [insertOne] at h
  split at h
  · rcases mem_writeFirstEmpty h with h | h
    · exact Or.inl (mem_occupiedEntries.mpr h)
    · exact Or.inr h
  · split at h
    · split at h
      · rcases List.mem_or_eq_of_mem_set h with h | h
        · exact Or.inl (mem_occupiedEntries.mpr h)
        · exact Or.inr (Option.some.inj h)
      · exact Or.inl (mem_occupiedEntries.mpr h)
    · rcases mem_writeFirstEmpty h with h | h
      · exact Or.inl (mem_occupiedEntries.mpr h)
      · exact Or.inr h

theorem mem_occupied_foldl {G : Type} {cs : List (Entry G)} :
    ∀ {a : Archive G} {e : Entry G}, e ∈ occupiedEntries (cs.foldl insertOne a) →
      e ∈ occupiedEntries a ∨ e ∈ cs := by
  induction cs with
  | nil => intro a e h; exact Or.inl h
  | cons c cs ih =>
      intro a e h
      rw [List.foldl_cons] at h
      rcases ih h with h | h
      · rcases mem_occupied_insertOne h with h | h
        · exact Or.inl h
        · exact Or.inr (h ▸ List.mem_cons_self _ _)
      · exact Or.inr (List.mem_cons_of_mem _ h)

theorem occupiedEntries_rebuild_subset {G : Type} {capacity : ℕ} {l : ℚ}
    {cs : List (Entry G)} {e : Entry G}
    (h : e ∈ occupiedEntries (rebuild capacity l cs)) : e ∈ cs := by
  rcases mem_occupied_foldl h with h | h
  · rw [occupiedEntries, emptyArchive, filterMap_id_replicate_none] at h
    exact absurd h (List.not_mem_nil e)
  · exact h

/-- Claim C2: at a retrain generation the params, the normalization mean and
the normalization std of the new loop state are the three components of the
single tuple returned by the trainer, and every occupied entry of the rebuilt
archive is a previously stored entry whose descriptor has been recomputed by
encoding its normalized observation under the new params, mean and std; hence
no descriptor computed under the old model state survives the rebuild. -/
theorem retrain_rebuild_atomic {G P : Type}
    (train : List (List ℚ) → P × ℚ × ℚ) (encode : P → List ℚ → ℚ)
    (i : ℕ) (s : LoopState G P) (h : (i + 1) ∈ schedules) :
    ((dispatchStep train encode i s).params,
        (dispatchStep train encode i s).mean,
        (dispatchStep train encode i s).std) =
      train ((occupiedEntries s.archive).map Entry.observation) ∧
    ∀ e ∈ occupiedEntries (dispatchStep train encode i s).archive,
      ∃ e₀ ∈ occupiedEntries s.archive,
        e = { e₀ with
              descriptor := encode (dispatchStep train encode i s).params
                              (normalizeObs (dispatchStep train encode i s).mean
                                (dispatchStep train encode i s).std
                                e₀.observation) } := by
  have hd : dispatchStep train encode i s = retrainBranch train encode s := by
    rw [dispatchStep, if_pos h]
  rw [hd]
  constructor
  · rfl
  · intro e he
    have hsub := @occupiedEntries_rebuild_subset G s.archive.slots.length
      s.archive.l_value _ e he
    rcases List.mem_map.mp hsub with ⟨e₀, he₀, rfl⟩
    exact ⟨e₀, he₀, rfl⟩

theorem foldr_max_fitnesses {G : Type} (slots : List (Option (Entry G))) :
    (slots.map (fun s => s.elim ⊥ (fun e => (e.fitness : WithBot ℚ)))).foldr max ⊥ =
      ((slots.filterMap id).map (fun e => (e.fitness : WithBot ℚ))).foldr max ⊥ := by
  induction slots with
  | nil => rfl
  | cons s rest ih =>
      cases s with
      | none =>
          rw [List.map_cons, List.foldr_cons, List.filterMap_cons]
          show max ⊥ _ = _
          rw [max_eq_right bot_le, ih]
          rfl
      | some e =>
          rw [List.map_cons, List.foldr_cons, List.filterMap_cons]
          show max (e.fitness : WithBot ℚ) _ = _
          rw [ih]
          rfl

/-- Claim C10: the max fitness metric is the fold of max over the whole
fitness array, empty slots carrying the sentinel; it therefore equals the
maximum over the occupied slots alone, and on an archive whose slots are all
empty it equals the sentinel, bottom (negative infinity).  The metrics
function only reads the archive, it returns a separate record. -/
theorem max_fitness_metric {G : Type} (reward_offset episode_length : ℚ)
    (a : Archive G) :
    (metrics_fn reward_offset episode_length a).max_fitness =
      ((occupiedEntries a).map (fun e => (e.fitness : WithBot ℚ))).foldr max ⊥ ∧
    ((∀ s ∈ a.slots, s = none) →
      (metrics_fn reward_offset episode_length a).max_fitness = ⊥) := by
  have hfold : (metrics_fn reward_offset episode_length a).max_fitness =
      ((occupiedEntries a).map (fun e => (e.fitness : WithBot ℚ))).foldr max ⊥ := by
    show (fitnessesWithSentinel a).foldr max ⊥ = _
    rw [fitnessesWithSentinel, foldr_max_fitnesses]
    rfl
  refine ⟨hfold, ?_⟩
  intro hempty
  rw [hfold]
  have hocc : occupiedEntries a = [] := by
    rw [occupiedEntries]
    rw [List.filterMap_eq_nil_iff]
    intro x hx
    rw [hempty x hx]
    rfl
  rw [hocc]
  rfl

theorem encoderRun_foldl {S X Y : Type} (cell : S → X → S × Y)
    (xs : List X) :
    ∀ st : S, (xs.foldl (fun carry x => (encoderLSTMStep cell carry x).1)
        (st, false)) = (xs.foldl (fun s x => (cell s x).1) st, false) := by
  induction xs with
  | nil => intro st; rfl
  | cons x xs ih =>
      intro st
      rw [List.foldl_cons, List.foldl_cons]
      exact ih ((cell st x).1)

/-- Claim C3 (code bug): the encoder never holds the state constant, because
the end-of-sequence flag starts false and its update is commented out at
seq2seq_model.py line 58; the scan reduces to a plain fold of the cell over
the whole padded sequence.  Concretely, with an accumulating cell over the
integers and an input whose first element carries the end-of-sequence signal,
the source encoder consumes both timesteps and returns 11, while the
documented behaviour (docstring at line 70, comments at lines 80 and 81)
freezes the state after the first timestep and returns 1. -/
theorem encoder_ignores_eos :
    (∀ {S X Y : Type} (cell : S → X → S × Y) (s0 : S) (xs : List X),
        encoderRun cell s0 xs = xs.foldl (fun s x => (cell s x).1) s0) ∧
    encoderRun (fun (st : ℤ) (x : ℤ × Bool) => (st + x.1, st)) 0
        [(1, true), (10, false)] = 11 ∧
    encoderRunSpec (fun (st : ℤ) (x : ℤ × Bool) => (st + x.1, st))
        (fun x => x.2) 0 [(1, true), (10, false)] = 1 := by
  refine ⟨?_, by decide, by decide⟩
  intro S X Y cell s0 xs
  rw [encoderRun, encoderRun_foldl cell xs s0]

/-- Claim C7: encode is deterministic and pure: two calls with equal
observation batches and equal model state (the cell closed over the params,
the initial carry, the mean and the std) return equal descriptor batches; the
call returns only the descriptors and no component of the model state, which
it cannot mutate. -/
theorem encode_deterministic {C H Y : Type}
    (cell cell' : (C × H) → ℚ → (C × H) × Y) (init init' : C × H)
    (m m' sd sd' : ℚ) (obs obs' : List (List ℚ))
    (hc : cell = cell') (hi : init = init') (hm : m = m') (hs : sd = sd')
    (ho : obs = obs') :
    seq2seqEncode cell init m sd obs = seq2seqEncode cell' init' m' sd' obs' := by
  subst hc hi hm hs ho
  rfl

theorem scanL_decoder_outputs {S X : Type} (cell : S → X → S × X)
    (dense : X → X) (teacherForce : Bool) :
    ∀ (xs : List X) (carry : S × X) (y : X × X),
      y ∈ (scanL (decoderLSTMStep cell dense teacherForce) carry xs).2 →
        y.1 = y.2 := by
  intro xs
  induction xs with
  | nil => intro carry y hy; simp [scanL] at hy
  | cons x xs ih =>
      intro carry y hy
      rw [scanL] at hy
      rcases List.mem_cons.mp hy with hy | hy
      · rw [hy]; rfl
      · exact ih _ y hy

theorem controller_threshold_strictly_decreases_witness :
    (2 + 1) ∉ schedules ∧
    (dispatchStep unitTrain unitEncode 2 initState).archive.l_value
      < initState.archive.l_value :=
  ⟨not_mem_schedules_of_even rfl,
    controller_threshold_strictly_decreases unitTrain unitEncode 2 initState
      (not_mem_schedules_of_even rfl) rfl (by decide) (by decide)⟩

theorem retrain_supersedes_controller_witness :
    (1 + 1) ∈ schedules ∧
    (dispatchStep unitTrain unitEncode 1 initState
        = retrainBranch unitTrain unitEncode initState ∧
      (dispatchStep unitTrain unitEncode 1 initState).previous_error
        = initState.previous_error) :=
  ⟨two_mem_schedules,
    retrain_supersedes_controller unitTrain unitEncode 1 initState
      two_mem_schedules⟩

theorem controller_pd_law_witness :
    (2 + 1) ∉ schedules ∧ 2 % 2 = 0 ∧
    ((dispatchStep unitTrain unitEncode 2 initState).previous_error
        = (occupancy initState.archive : ℤ) - n_target ∧
      (dispatchStep unitTrain unitEncode 2 initState).archive.l_value
        = initState.archive.l_value
          + prop_gain * ((((occupancy initState.archive : ℤ) - n_target : ℤ)) : ℚ)
          + prop_gain * ((((occupancy initState.archive : ℤ) - n_target
              - initState.previous_error : ℤ)) : ℚ) ∧
      (∀ j : ℕ, (j + 1) ∈ schedules ∨ j % 2 ≠ 0 →
        (dispatchStep unitTrain unitEncode j initState).previous_error
          = initState.previous_error)) :=
  ⟨not_mem_schedules_of_even rfl, rfl,
    controller_pd_law unitTrain unitEncode 2 initState
      (not_mem_schedules_of_even rfl) rfl⟩

theorem controller_generation_frame_witness :
    (2 + 1) ∉ schedules ∧ 2 % 2 = 0 ∧
    ((dispatchStep unitTrain unitEncode 2 oneState).archive.slots
        = oneState.archive.slots ∧
      (dispatchStep unitTrain unitEncode 2 oneState).params = oneState.params ∧
      (dispatchStep unitTrain unitEncode 2 oneState).mean = oneState.mean ∧
      (dispatchStep unitTrain unitEncode 2 oneState).std = oneState.std ∧
      (dispatchStep unitTrain unitEncode 2 oneState).archive.l_value
        = oneState.archive.l_value
          + prop_gain * ((((occupancy oneState.archive : ℤ) - n_target : ℤ)) : ℚ)
          + prop_gain * ((((occupancy oneState.archive : ℤ) - n_target
              - oneState.previous_error : ℤ)) : ℚ)) :=
  ⟨not_mem_schedules_of_even rfl, rfl,
    controller_generation_frame unitTrain unitEncode 2 oneState
      (not_mem_schedules_of_even rfl) rfl⟩

theorem retrain_rebuild_atomic_witness :
    (1 + 1) ∈ schedules ∧
    (((dispatchStep unitTrain unitEncode 1 oneState).params,
        (dispatchStep unitTrain unitEncode 1 oneState).mean,
        (dispatchStep unitTrain unitEncode 1 oneState).std)
      = unitTrain ((occupiedEntries oneState.archive).map Entry.observation) ∧
      ∀ e ∈ occupiedEntries (dispatchStep unitTrain unitEncode 1 oneState).archive,
        ∃ e₀ ∈ occupiedEntries oneState.archive,
          e = { e₀ with
                descriptor := unitEncode
                                (dispatchStep unitTrain unitEncode 1 oneState).params
                                (normalizeObs
                                  (dispatchStep unitTrain unitEncode 1 oneState).mean
                                  (dispatchStep unitTrain unitEncode 1 oneState).std
                                  e₀.observation) }) :=
  ⟨two_mem_schedules,
    retrain_rebuild_atomic unitTrain unitEncode 1 oneState two_mem_schedules⟩

theorem encode_deterministic_witness :
    seq2seqEncode (fun (st : ℚ × ℚ) (x : ℚ) => ((st.1 + x, st.2), st.1))
        ((0 : ℚ), (0 : ℚ)) 0 1 [[1, 2]]
      = seq2seqEncode (fun (st : ℚ × ℚ) (x : ℚ) => ((st.1 + x, st.2), st.1))
        ((0 : ℚ), (0 : ℚ)) 0 1 [[1, 2]] :=
  encode_deterministic _ _ _ _ _ _ _ _ _ _ rfl rfl rfl rfl rfl

theorem max_fitness_metric_witness :
    (metrics_fn 0 1 (emptyArchive Unit 2 1)).max_fitness = ⊥ ∧
    (metrics_fn 0 1 ({ slots := [some entry0, none], l_value := 1 } : Archive Unit)).max_fitness
      = ((occupiedEntries
            ({ slots := [some entry0, none], l_value := 1 } : Archive Unit)).map
          (fun e => (e.fitness : WithBot ℚ))).foldr max ⊥ :=
  ⟨(max_fitness_metric 0 1 (emptyArchive Unit 2 1)).2
      (fun _ hs => List.eq_of_mem_replicate hs),
    (max_fitness_metric 0 1 _).1⟩

/-- Claim C9: the two outputs of the decoder coincide: the returned
predictions are exactly the logits, not a sampled or one-hot transformation
of them. -/
theorem decoder_predictions_eq_logits {S X : Type} (cell : S → X → S × X)
    (dense : X → X) (teacherForce : Bool) (inputs : List X) (initState : S) :
    (decoderRun cell dense teacherForce inputs initState).1 =
      (decoderRun cell dense teacherForce inputs initState).2 := by
  cases inputs with
  | nil => rfl
  | cons x0 rest =>
      show (scanL _ _ _).2.map Prod.fst = (scanL _ _ _).2.map Prod.snd
      apply List.map_congr_left
      intro y hy
      exact scanL_decoder_outputs cell dense teacherForce _ _ y hy

end Aurora
